import Mathlib

/-!
# Verification of the `design_patterns` repository examples

Shallow embedding of the Python example programs of the repository
(strategy / decorator / observer / adapter / state / composite patterns)
and proofs of the specification claims about them.

Python `float` money and cost amounts are modelled as rationals (`ℚ`):
every concrete amount appearing in the programs (multiples of 0.05) and
every sum or difference of such amounts that the claims mention is exactly
representable, so the rational model agrees with the floating-point
computation on all values involved.  Python `int` is modelled as `Int`,
Python lists as `List`, `None`-able values as `Option`, raised errors as
`Except`.
-/

namespace DesignPatterns

/-! ## Strategy pattern: sorting algorithms
(`src/1_strategy/2_sorting_algorithms/example.py`)

`QuickSortStrategy.sort`: pivot is `data[len(data) // 2]`; `left`,
`middle`, `right` are the list-comprehension partitions by `<`, `==`, `>`
against the pivot. -/

def quickSort (data : List Int) : List Int :=
  if data.length ≤ 1 then data
  else
    let pivot := data.getD (data.length / 2) 0
    let left := data.filter (fun x => x < pivot)
    let middle := data.filter (fun x => x = pivot)
    let right := data.filter (fun x => pivot < x)
    quickSort left ++ middle ++ quickSort right
termination_by data.length
decreasing_by
  all_goals
    rw [List.length_filter_lt_length_iff_exists]
    refine ⟨data.getD (data.length / 2) 0, ?_, by simp⟩
    rw [List.getD_eq_getElem data 0 (Nat.div_lt_self (by omega) (by omega))]
    exact List.getElem_mem _

/-- `MergeSortStrategy._merge`: the index-based while loop that repeatedly
moves the smaller head (`left[i] <= right[j]` preferring the left list)
into the result and finally extends with the remaining suffixes, rendered
as structural recursion on the two remaining suffixes. -/
def pymerge : List Int → List Int → List Int
  | [], ys => ys
  | x :: xs, [] => x :: xs
  | x :: xs, y :: ys =>
    if x ≤ y then x :: pymerge xs (y :: ys)
    else y :: pymerge (x :: xs) ys
termination_by l r => l.length + r.length

/-- `MergeSortStrategy.sort`: split at `mid = len(data) // 2` into
`data[:mid]` and `data[mid:]`, sort both halves recursively, merge. -/
def mergeSort (data : List Int) : List Int :=
  if data.length ≤ 1 then data
  else
    let mid := data.length / 2
    pymerge (mergeSort (data.take mid)) (mergeSort (data.drop mid))
termination_by data.length
decreasing_by
  · simp only [List.length_take]
    omega
  · simp only [List.length_drop]
    omega

/-- One inner pass of `BubbleSortStrategy.sort`: the loop
`for j in range(0, stop)` comparing `arr[j]` with `arr[j+1]` and swapping
when `arr[j] > arr[j+1]`, rendered as structural recursion on the suffix
still to be scanned; the first argument counts the remaining comparisons,
the returned flag is the accumulated `swapped`. -/
def bpass : Nat → List Int → List Int × Bool
  | 0, arr => (arr, false)
  | _ + 1, [] => ([], false)
  | _ + 1, [a] => ([a], false)
  | k + 1, a :: b :: rest =>
    if b < a then
      ((bpass k (a :: rest)).1.cons b, true)
    else
      ((bpass k (b :: rest)).1.cons a, (bpass k (b :: rest)).2)

/-- The outer loop `for i in range(n)` of `BubbleSortStrategy.sort`: each
iteration runs a pass of `n - i - 1` comparisons and breaks early when the
pass made no swap. -/
def bubbleGo (n i : Nat) (arr : List Int) : List Int :=
  if i < n then
    if (bpass (n - i - 1) arr).2 then bubbleGo n (i + 1) (bpass (n - i - 1) arr).1
    else (bpass (n - i - 1) arr).1
  else arr
termination_by n - i

/-- `BubbleSortStrategy.sort` on the copied array (`arr = data.copy()`);
the copy itself is modelled at the store level below. -/
def bubbleSort (data : List Int) : List Int :=
  bubbleGo data.length 0 data

/-! ### Correctness of the three sort strategies (claim C1) -/

theorem count_filter_decide (p : Int → Prop) [DecidablePred p] (a : Int) (l : List Int) :
    List.count a (l.filter (fun x => p x)) = if p a then List.count a l else 0 := by
  split
  · next h => exact List.count_filter (by simpa using h)
  · next h =>
    apply List.count_eq_zero.2
    intro hmem
    exact h (by simpa using (List.mem_filter.1 hmem).2)

theorem filter_partition_perm (pivot : Int) (data : List Int) :
    (data.filter (fun x => x < pivot) ++
      (data.filter (fun x => x = pivot) ++ data.filter (fun x => pivot < x))).Perm data := by
  rw [List.perm_iff_count]
  intro a
  simp only [List.count_append, count_filter_decide]
  split_ifs <;> omega

theorem quickSort_perm (data : List Int) : (quickSort data).Perm data := by
  induction data using quickSort.induct with
  | case1 x h => rw [quickSort]; simp [h]
  | case2 x h pivot left right ihl ihr =>
    rw [quickSort]
    simp only [h, if_false, List.append_assoc]
    exact (ihl.append ((List.Perm.refl _).append ihr)).trans
      (filter_partition_perm pivot x)

theorem mem_quickSort {a : Int} {data : List Int} : a ∈ quickSort data ↔ a ∈ data :=
  (quickSort_perm data).mem_iff

theorem quickSort_sorted (data : List Int) : (quickSort data).Sorted (· ≤ ·) := by
  induction data using quickSort.induct with
  | case1 x h =>
    rw [quickSort]
    simp only [h, if_true]
    match x, h with
    | [], _ => simp
    | [a], _ => simp
  | case2 x h pivot left right ihl ihr =>
    rw [quickSort]
    simp only [h, if_false]
    rw [List.Sorted, List.pairwise_append, List.pairwise_append]
    refine ⟨⟨ihl, ?_, ?_⟩, ihr, ?_⟩
    · exact List.pairwise_of_forall_mem_list fun a ha b hb => by
        simp only [List.mem_filter, decide_eq_true_eq] at ha hb
        omega
    · intro a ha b hb
      rw [mem_quickSort] at ha
      simp only [List.mem_filter, decide_eq_true_eq] at ha hb
      omega
    · intro a ha b hb
      rw [mem_quickSort] at hb
      simp only [List.mem_filter, decide_eq_true_eq] at hb
      rcases List.mem_append.1 ha with ha | ha
      · rw [mem_quickSort] at ha
        simp only [List.mem_filter, decide_eq_true_eq] at ha
        omega
      · simp only [List.mem_filter, decide_eq_true_eq] at ha
        omega

theorem pymerge_perm (l r : List Int) : (pymerge l r).Perm (l ++ r) := by
  induction l, r using pymerge.induct with
  | case1 ys => simp [pymerge]
  | case2 x xs => simp [pymerge]
  | case3 x xs y ys h ih =>
    rw [pymerge]
    simp only [h, if_true]
    exact ih.cons x
  | case4 x xs y ys h ih =>
    rw [pymerge]
    simp only [h, if_false]
    exact (ih.cons y).trans List.perm_middle.symm

theorem pymerge_sorted {l r : List Int} (hl : l.Sorted (· ≤ ·)) (hr : r.Sorted (· ≤ ·)) :
    (pymerge l r).Sorted (· ≤ ·) := by
  induction l, r using pymerge.induct with
  | case1 ys => simpa [pymerge] using hr
  | case2 x xs => simpa [pymerge] using hl
  | case3 x xs y ys h ih =>
    rw [pymerge]
    simp only [h, if_true]
    rw [List.Sorted, List.pairwise_cons] at hl ⊢
    refine ⟨?_, ih hl.2 hr⟩
    intro z hz
    rcases ((pymerge_perm xs (y :: ys)).mem_iff).1 hz with hz'
    rcases List.mem_append.1 hz' with hz'' | hz''
    · exact hl.1 z hz''
    · rcases List.mem_cons.1 hz'' with rfl | hz3
      · exact h
      · exact le_trans h ((List.pairwise_cons.1 hr).1 z hz3)
  | case4 x xs y ys h ih =>
    rw [pymerge]
    simp only [h, if_false]
    rw [List.Sorted, List.pairwise_cons] at hr ⊢
    refine ⟨?_, ih hl hr.2⟩
    intro z hz
    rcases ((pymerge_perm (x :: xs) ys).mem_iff).1 hz with hz'
    rcases List.mem_append.1 hz' with hz'' | hz''
    · rcases List.mem_cons.1 hz'' with rfl | hz3
      · omega
      · have hxz := (List.pairwise_cons.1 hl).1 z hz3
        omega
    · exact hr.1 z hz''

theorem mergeSort_perm (data : List Int) : (mergeSort data).Perm data := by
  induction data using mergeSort.induct with
  | case1 x h => rw [mergeSort]; simp [h]
  | case2 x h mid ih1 ih2 =>
    rw [mergeSort]
    simp only [h, if_false]
    refine (pymerge_perm _ _).trans ?_
    refine (ih1.append ih2).trans ?_
    rw [List.take_append_drop]

theorem mergeSort_sorted (data : List Int) : (mergeSort data).Sorted (· ≤ ·) := by
  induction data using mergeSort.induct with
  | case1 x h =>
    rw [mergeSort]
    simp only [h, if_true]
    match x, h with
    | [], _ => simp
    | [a], _ => simp
  | case2 x h mid ih1 ih2 =>
    rw [mergeSort]
    simp only [h, if_false]
    exact pymerge_sorted ih1 ih2

theorem bpass_perm (k : Nat) (l : List Int) : (bpass k l).1.Perm l := by
  induction k, l using bpass.induct with
  | case1 arr => rw [bpass]
  | case2 n => rw [bpass]
  | case3 n a => rw [bpass]
  | case4 k a b rest h ih =>
    rw [bpass]
    simp only [h, if_true]
    exact (ih.cons b).trans (List.Perm.swap a b rest)
  | case5 k a b rest h ih =>
    rw [bpass]
    simp only [h, if_false]
    exact ih.cons a

theorem bpass_drop (k : Nat) (l : List Int) :
    (bpass k l).1.drop (k + 1) = l.drop (k + 1) := by
  induction k, l using bpass.induct with
  | case1 arr => rw [bpass]
  | case2 n => rw [bpass]
  | case3 n a => rw [bpass]
  | case4 k a b rest h ih =>
    rw [bpass]
    simp only [h, if_true, List.cons_append]
    show ((bpass k (a :: rest)).1.cons b).drop (k + 1 + 1) = _
    rw [List.drop_succ_cons]
    rw [ih]
    simp [List.drop_succ_cons]
  | case5 k a b rest h ih =>
    rw [bpass]
    simp only [h, if_false]
    show ((bpass k (b :: rest)).1.cons a).drop (k + 1 + 1) = _
    rw [List.drop_succ_cons]
    rw [ih]
    simp [List.drop_succ_cons]

theorem take_perm_of_drop_eq {l₁ l₂ : List Int} {n : Nat} (hp : l₁.Perm l₂)
    (hd : l₁.drop n = l₂.drop n) : (l₁.take n).Perm (l₂.take n) := by
  apply (List.perm_append_right_iff (l₁.drop n)).1
  nth_rewrite 2 [hd]
  rw [List.take_append_drop, List.take_append_drop]
  exact hp

theorem bpass_take_perm (k : Nat) (l : List Int) :
    ((bpass k l).1.take (k + 1)).Perm (l.take (k + 1)) :=
  take_perm_of_drop_eq (bpass_perm k l) (bpass_drop k l)

theorem bpass_max (k : Nat) (l : List Int) :
    k + 1 ≤ l.length → ∀ x ∈ (bpass k l).1.take (k + 1), x ≤ (bpass k l).1.getD k 0 := by
  induction k, l using bpass.induct with
  | case1 arr =>
    intro hk x hx
    match arr, hk with
    | a :: t, _ =>
      rw [bpass] at hx ⊢
      simp only [List.take_succ_cons, List.take_zero, List.mem_singleton] at hx
      simp [hx, List.getD]
  | case2 n => intro hk; simp at hk
  | case3 n a => intro hk; simp at hk
  | case4 k a b rest h ih =>
    intro hk x hx
    have hk' : k + 1 ≤ (a :: rest).length := by
      simp only [List.length_cons] at hk ⊢
      omega
    have hamem : a ∈ (bpass k (a :: rest)).1.take (k + 1) := by
      apply (bpass_take_perm k (a :: rest)).mem_iff.2
      rw [List.take_succ_cons]
      exact List.mem_cons_self a _
    have hbound := ih hk'
    rw [bpass] at hx ⊢
    simp only [h, if_true] at hx ⊢
    show x ≤ ((bpass k (a :: rest)).1.cons b).getD (k + 1) 0
    rw [List.getD_cons_succ]
    rcases List.mem_cons.1 (by simpa using hx) with rfl | hx'
    · exact le_trans (le_of_lt h) (hbound a hamem)
    · exact hbound x hx'
  | case5 k a b rest h ih =>
    intro hk x hx
    have hk' : k + 1 ≤ (b :: rest).length := by
      simp only [List.length_cons] at hk ⊢
      omega
    have hbmem : b ∈ (bpass k (b :: rest)).1.take (k + 1) := by
      apply (bpass_take_perm k (b :: rest)).mem_iff.2
      rw [List.take_succ_cons]
      exact List.mem_cons_self b _
    have hbound := ih hk'
    rw [bpass] at hx ⊢
    simp only [h, if_false] at hx ⊢
    show x ≤ ((bpass k (b :: rest)).1.cons a).getD (k + 1) 0
    rw [List.getD_cons_succ]
    rcases List.mem_cons.1 (by simpa using hx) with rfl | hx'
    · exact le_trans (by omega) (hbound b hbmem)
    · exact hbound x hx'

theorem bpass_eq_of_no_swap (k : Nat) (l : List Int) :
    (bpass k l).2 = false → (bpass k l).1 = l := by
  induction k, l using bpass.induct with
  | case1 arr => intro _; rw [bpass]
  | case2 n => intro _; rw [bpass]
  | case3 n a => intro _; rw [bpass]
  | case4 k a b rest h ih =>
    rw [bpass]
    simp [h]
  | case5 k a b rest h ih =>
    rw [bpass]
    simp only [h, if_false]
    intro hsw
    rw [ih hsw]

theorem bpass_chain_of_no_swap (k : Nat) (l : List Int) :
    (bpass k l).2 = false → List.Chain' (· ≤ ·) (l.take (k + 1)) := by
  induction k, l using bpass.induct with
  | case1 arr =>
    intro _
    match arr with
    | [] => simp
    | a :: t => simp
  | case2 n => intro _; simp
  | case3 n a => intro _; simp
  | case4 k a b rest h ih =>
    rw [bpass]
    simp [h]
  | case5 k a b rest h ih =>
    rw [bpass]
    simp only [h, if_false]
    intro hsw
    rw [List.take_succ_cons]
    rw [List.chain'_cons']
    refine ⟨?_, ih hsw⟩
    intro y hy
    rw [List.take_succ_cons, List.head?_cons, Option.mem_some_iff] at hy
    omega

theorem getD_mem_take {l : List Int} {k : Nat} (hk : k < l.length) :
    l.getD k 0 ∈ l.take (k + 1) := by
  rw [List.getD_eq_getElem l 0 hk]
  have hkt : k < (l.take (k + 1)).length := by
    simp only [List.length_take]
    omega
  have hget : (l.take (k + 1))[k] = l[k] := List.getElem_take l
  rw [← hget]
  exact List.getElem_mem hkt

theorem mem_take_succ_of_mem_take {l : List Int} {k : Nat} {x : Int}
    (hx : x ∈ l.take k) : x ∈ l.take (k + 1) := by
  have h : l.take k = (l.take (k + 1)).take k := by
    rw [List.take_take]
    congr 1
    omega
  rw [h] at hx
  exact List.take_subset _ _ hx

theorem bubbleGo_correct (n : Nat) :
    ∀ (f i : Nat) (arr : List Int), n - i ≤ f → arr.length = n →
    (arr.drop (n - i)).Sorted (· ≤ ·) →
    (∀ x ∈ arr.take (n - i), ∀ y ∈ arr.drop (n - i), x ≤ y) →
    (bubbleGo n i arr).Perm arr ∧ (bubbleGo n i arr).Sorted (· ≤ ·) := by
  intro f
  induction f with
  | zero =>
    intro i arr hf hlen hs hd
    have hni : ¬ i < n := by omega
    rw [bubbleGo]
    simp only [hni, if_false]
    refine ⟨List.Perm.refl _, ?_⟩
    have h0 : n - i = 0 := by omega
    rw [h0, List.drop_zero] at hs
    exact hs
  | succ f ihf =>
    intro i arr hf hlen hs hd
    rw [bubbleGo]
    by_cases hin : i < n
    · simp only [hin, if_true]
      have hk1 : n - i - 1 + 1 = n - i := by omega
      have hklen : n - i - 1 + 1 ≤ arr.length := by omega
      have hperm := bpass_perm (n - i - 1) arr
      have hdropeq := bpass_drop (n - i - 1) arr
      have htakeperm := bpass_take_perm (n - i - 1) arr
      by_cases hsw : (bpass (n - i - 1) arr).2
      · simp only [hsw, if_true]
        have hlen2 : (bpass (n - i - 1) arr).1.length = n := hperm.length_eq.trans hlen
        have hklt : n - i - 1 < (bpass (n - i - 1) arr).1.length := by omega
        have hdropc : (bpass (n - i - 1) arr).1.drop (n - i - 1) =
            (bpass (n - i - 1) arr).1.getD (n - i - 1) 0 :: arr.drop (n - i) := by
          rw [List.drop_eq_getElem_cons hklt, hdropeq, hk1,
            List.getD_eq_getElem _ 0 hklt]
        have hmax := bpass_max (n - i - 1) arr hklen
        have hmmem : (bpass (n - i - 1) arr).1.getD (n - i - 1) 0 ∈
            arr.take (n - i) := by
          rw [← hk1]
          exact htakeperm.mem_iff.1 (getD_mem_take hklt)
        have hmle : ∀ y ∈ arr.drop (n - i),
            (bpass (n - i - 1) arr).1.getD (n - i - 1) 0 ≤ y := by
          intro y hy
          exact hd _ hmmem y hy
        have hs2 : ((bpass (n - i - 1) arr).1.drop (n - (i + 1))).Sorted (· ≤ ·) := by
          have hni1 : n - (i + 1) = n - i - 1 := by omega
          rw [hni1, hdropc]
          rw [List.Sorted, List.pairwise_cons]
          exact ⟨hmle, hs⟩
        have hd2 : ∀ x ∈ (bpass (n - i - 1) arr).1.take (n - (i + 1)),
            ∀ y ∈ (bpass (n - i - 1) arr).1.drop (n - (i + 1)), x ≤ y := by
          have hni1 : n - (i + 1) = n - i - 1 := by omega
          rw [hni1, hdropc]
          intro x hx y hy
          have hx1 : x ∈ (bpass (n - i - 1) arr).1.take (n - i - 1 + 1) :=
            mem_take_succ_of_mem_take hx
          rcases List.mem_cons.1 hy with rfl | hy'
          · exact hmax x hx1
          · have hxa : x ∈ arr.take (n - i) := by
              rw [← hk1]
              exact htakeperm.mem_iff.1 hx1
            exact hd x hxa y hy'
        obtain ⟨hp, hsrt⟩ := ihf (i + 1) (bpass (n - i - 1) arr).1
          (by omega) hlen2 hs2 hd2
        exact ⟨hp.trans hperm, hsrt⟩
      · have hsw' : (bpass (n - i - 1) arr).2 = false := by
          simpa using hsw
        rw [hsw']
        simp only [Bool.false_eq_true, if_false]
        rw [bpass_eq_of_no_swap (n - i - 1) arr hsw']
        refine ⟨List.Perm.refl _, ?_⟩
        have hchain := bpass_chain_of_no_swap (n - i - 1) arr hsw'
        rw [hk1] at hchain
        have hpw : (arr.take (n - i)).Sorted (· ≤ ·) :=
          List.chain'_iff_pairwise.1 hchain
        have key : (arr.take (n - i) ++ arr.drop (n - i)).Sorted (· ≤ ·) := by
          rw [List.Sorted, List.pairwise_append]
          exact ⟨hpw, hs, hd⟩
        rw [List.take_append_drop] at key
        exact key
    · simp only [hin, if_false]
      refine ⟨List.Perm.refl _, ?_⟩
      have h0 : n - i = 0 := by omega
      rw [h0, List.drop_zero] at hs
      exact hs

theorem bubbleSort_perm (data : List Int) : (bubbleSort data).Perm data := by
  have h := bubbleGo_correct data.length data.length 0 data (by omega) rfl
    (by simp) (by simp)
  exact h.1

theorem bubbleSort_sorted (data : List Int) : (bubbleSort data).Sorted (· ≤ ·) := by
  have h := bubbleGo_correct data.length data.length 0 data (by omega) rfl
    (by simp) (by simp)
  exact h.2

/-- **C1.** For every input list of integers, each of the three sorting
strategies (`QuickSortStrategy.sort`, `MergeSortStrategy.sort`,
`BubbleSortStrategy.sort`) returns a list that is a permutation of the
input, is non-descending, and has the same length as the input. -/
theorem C1_sorting_strategies_sort_correctly (data : List Int) :
    ((quickSort data).Perm data ∧ (quickSort data).Sorted (· ≤ ·) ∧
      (quickSort data).length = data.length) ∧
    ((mergeSort data).Perm data ∧ (mergeSort data).Sorted (· ≤ ·) ∧
      (mergeSort data).length = data.length) ∧
    ((bubbleSort data).Perm data ∧ (bubbleSort data).Sorted (· ≤ ·) ∧
      (bubbleSort data).length = data.length) :=
  ⟨⟨quickSort_perm data, quickSort_sorted data, (quickSort_perm data).length_eq⟩,
   ⟨mergeSort_perm data, mergeSort_sorted data, (mergeSort_perm data).length_eq⟩,
   ⟨bubbleSort_perm data, bubbleSort_sorted data, (bubbleSort_perm data).length_eq⟩⟩

/-! ## Strategy contexts (`DataSorter`, `PaymentProcessor`) -/

/-- The three concrete `SortStrategy` classes. -/
inductive SortStrategyKind
  | quickS
  | mergeS
  | bubbleS

def SortStrategyKind.sort : SortStrategyKind → List Int → List Int
  | .quickS => quickSort
  | .mergeS => mergeSort
  | .bubbleS => bubbleSort

/-- `DataSorter`: holds an optional strategy (`None` by default). -/
structure DataSorter where
  strategy : Option SortStrategyKind

/-- `DataSorter.sort_data`: raises `ValueError("No sorting strategy set")`
when no strategy is configured, otherwise returns the strategy's result. -/
def DataSorter.sort_data (d : DataSorter) (data : List Int) :
    Except String (List Int) :=
  match d.strategy with
  | none => Except.error "No sorting strategy set"
  | some s => Except.ok (s.sort data)

/-- The result dictionary built by the `pay` methods
(`src/1_strategy/1_payment_processing/example.py`); `currency` is the key
present only in the crypto result. -/
structure PayResult where
  status : String
  method : String
  currency : Option String
  amount : ℚ
  transaction_id : String

/-- The three concrete `PaymentStrategy` classes with their constructor
fields. -/
inductive PaymentStrategy
  | creditCard (card_number cvv : String)
  | payPal (email : String)
  | crypto (wallet_address currency : String)

/-- `pay` of each strategy; `h` models Python's opaque `hash` on strings
(`%` is Python's floored modulo, i.e. `Int.emod` for a positive modulus). -/
def PaymentStrategy.pay (h : String → Int) : PaymentStrategy → ℚ → PayResult
  | .creditCard card _, amount =>
    ⟨"success", "credit_card", none, amount, "CC-" ++ toString (h card % 10000)⟩
  | .payPal email, amount =>
    ⟨"success", "paypal", none, amount, "PP-" ++ toString (h email % 10000)⟩
  | .crypto wallet currency, amount =>
    ⟨"success", "crypto", some currency, amount,
      "CRYPTO-" ++ toString (h wallet % 10000)⟩

/-- `PaymentProcessor`: holds an optional strategy (`None` by default). -/
structure PaymentProcessor where
  strategy : Option PaymentStrategy

/-- `PaymentProcessor.process_payment`: raises
`ValueError("No payment strategy set")` when no strategy is configured,
otherwise returns the strategy's result. -/
def PaymentProcessor.process_payment (h : String → Int) (p : PaymentProcessor)
    (amount : ℚ) : Except String PayResult :=
  match p.strategy with
  | none => Except.error "No payment strategy set"
  | some s => Except.ok (s.pay h amount)

/-- **C3.** A Strategy context with no strategy set raises an
"unconfigured" error rather than silently no-opping; with a strategy set,
no error is raised and the strategy's result is returned unchanged. -/
theorem C3_unconfigured_strategy_context_errors (h : String → Int)
    (amount : ℚ) (data : List Int) :
    (PaymentProcessor.process_payment h ⟨none⟩ amount =
      Except.error "No payment strategy set") ∧
    (∀ s : PaymentStrategy, PaymentProcessor.process_payment h ⟨some s⟩ amount =
      Except.ok (s.pay h amount)) ∧
    (DataSorter.sort_data ⟨none⟩ data =
      Except.error "No sorting strategy set") ∧
    (∀ s : SortStrategyKind, DataSorter.sort_data ⟨some s⟩ data =
      Except.ok (s.sort data)) :=
  ⟨rfl, fun _ => rfl, rfl, fun _ => rfl⟩

/-! ## Store-level model of the sorts (claim C10)

Python lists are mutable heap objects; to state that the sorting strategies
do not mutate the caller's list we model a heap of list objects: cells are
numbered, `alloc` creates a fresh cell, `write` is an assignment to an
existing cell.  `BubbleSortStrategy.sort` first allocates a copy
(`arr = data.copy()`) and then performs its swaps by writing to that copy;
`QuickSortStrategy.sort` and `MergeSortStrategy.sort` contain no assignment
to any list at all — they build fresh lists (comprehensions, slices,
concatenations, appends), so at the store level they only allocate their
result (returning the input object itself in the `len(data) <= 1` case). -/

structure Store where
  mem : Nat → List Int
  next : Nat

def Store.alloc (s : Store) (v : List Int) : Store × Nat :=
  (⟨fun i => if i = s.next then v else s.mem i, s.next + 1⟩, s.next)

def Store.write (s : Store) (r : Nat) (v : List Int) : Store :=
  ⟨fun i => if i = r then v else s.mem i, s.next⟩

def quickSortS (s : Store) (r : Nat) : Store × Nat :=
  if (s.mem r).length ≤ 1 then (s, r)
  else s.alloc (quickSort (s.mem r))

def mergeSortS (s : Store) (r : Nat) : Store × Nat :=
  if (s.mem r).length ≤ 1 then (s, r)
  else s.alloc (mergeSort (s.mem r))

/-- The outer loop of `BubbleSortStrategy.sort`, acting on the cell `r`
that holds the working array: each pass reads the array and writes the
rearranged array back to the same cell. -/
def bubbleGoS (n i : Nat) (s : Store) (r : Nat) : Store :=
  if i < n then
    if (bpass (n - i - 1) (s.mem r)).2 then
      bubbleGoS n (i + 1) (s.write r (bpass (n - i - 1) (s.mem r)).1) r
    else s.write r (bpass (n - i - 1) (s.mem r)).1
  else s
termination_by n - i

/-- `BubbleSortStrategy.sort` at the store level: copy the input into a
fresh cell, run the passes on that cell, return (a reference to) it. -/
def bubbleSortS (s : Store) (r : Nat) : Store × Nat :=
  (bubbleGoS (s.mem r).length 0 (s.alloc (s.mem r)).1 (s.alloc (s.mem r)).2,
    (s.alloc (s.mem r)).2)

theorem bubbleGoS_frame_fuel (n : Nat) :
    ∀ (f i : Nat) (s : Store) (r r' : Nat), n - i ≤ f → r' ≠ r →
    (bubbleGoS n i s r).mem r' = s.mem r' := by
  intro f
  induction f with
  | zero =>
    intro i s r r' hf hne
    have hin : ¬ i < n := by omega
    rw [bubbleGoS]
    simp [hin]
  | succ f ihf =>
    intro i s r r' hf hne
    rw [bubbleGoS]
    by_cases hin : i < n
    · simp only [hin, if_true]
      by_cases hsw : (bpass (n - i - 1) (s.mem r)).2
      · simp only [hsw, if_true]
        rw [ihf (i + 1) _ r r' (by omega) hne]
        simp [Store.write, hne]
      · have hsw' : (bpass (n - i - 1) (s.mem r)).2 = false := by simpa using hsw
        rw [hsw']
        simp [Store.write, hne]
    · simp [hin]

theorem bubbleGoS_frame (n i : Nat) (s : Store) (r r' : Nat) (hne : r' ≠ r) :
    (bubbleGoS n i s r).mem r' = s.mem r' :=
  bubbleGoS_frame_fuel n (n - i) i s r r' (le_refl _) hne

theorem bubbleGoS_agrees_fuel (n : Nat) :
    ∀ (f i : Nat) (s : Store) (r : Nat), n - i ≤ f →
    (bubbleGoS n i s r).mem r = bubbleGo n i (s.mem r) := by
  intro f
  induction f with
  | zero =>
    intro i s r hf
    have hin : ¬ i < n := by omega
    rw [bubbleGoS, bubbleGo]
    simp [hin]
  | succ f ihf =>
    intro i s r hf
    rw [bubbleGoS, bubbleGo]
    by_cases hin : i < n
    · simp only [hin, if_true]
      by_cases hsw : (bpass (n - i - 1) (s.mem r)).2
      · simp only [hsw, if_true]
        rw [ihf (i + 1) _ r (by omega)]
        simp [Store.write]
      · have hsw' : (bpass (n - i - 1) (s.mem r)).2 = false := by simpa using hsw
        rw [hsw']
        simp [Store.write]
    · simp [hin]

theorem bubbleGoS_agrees (n i : Nat) (s : Store) (r : Nat) :
    (bubbleGoS n i s r).mem r = bubbleGo n i (s.mem r) :=
  bubbleGoS_agrees_fuel n (n - i) i s r (le_refl _)

/-- **C10.** Each of the three sorting strategies leaves the caller's list
unchanged: after the call the input cell holds exactly its original
contents (BubbleSort mutates only its private copy, whose final contents
are `bubbleSort` of the input; QuickSort and MergeSort perform no writes
at all). -/
theorem C10_sorts_leave_input_unchanged (s : Store) (r : Nat)
    (hr : r < s.next) :
    (quickSortS s r).1.mem r = s.mem r ∧
    (mergeSortS s r).1.mem r = s.mem r ∧
    (bubbleSortS s r).1.mem r = s.mem r ∧
    (bubbleSortS s r).1.mem (bubbleSortS s r).2 = bubbleSort (s.mem r) := by
  have hne : r ≠ s.next := by omega
  refine ⟨?_, ?_, ?_, ?_⟩
  · rw [quickSortS]
    split
    · rfl
    · simp [Store.alloc, hne]
  · rw [mergeSortS]
    split
    · rfl
    · simp [Store.alloc, hne]
  · rw [bubbleSortS]
    show (bubbleGoS (s.mem r).length 0 (s.alloc (s.mem r)).1
      (s.alloc (s.mem r)).2).mem r = s.mem r
    rw [bubbleGoS_frame _ _ _ _ _ (show r ≠ (s.alloc (s.mem r)).2 from hne)]
    simp [Store.alloc, hne]
  · rw [bubbleSortS]
    show (bubbleGoS (s.mem r).length 0 (s.alloc (s.mem r)).1
      (s.alloc (s.mem r)).2).mem (s.alloc (s.mem r)).2 = bubbleSort (s.mem r)
    rw [bubbleGoS_agrees]
    simp [Store.alloc, bubbleSort]

/-- Witness for C10 at a concrete store holding `[3, 1, 2]` in cell 0. -/
theorem C10_witness :
    (0 : Nat) < (Store.mk (fun i => if i = 0 then [3, 1, 2] else []) 1).next ∧
    ((quickSortS (Store.mk (fun i => if i = 0 then [3, 1, 2] else []) 1) 0).1.mem 0 =
      (Store.mk (fun i => if i = 0 then [3, 1, 2] else []) 1).mem 0 ∧
     (mergeSortS (Store.mk (fun i => if i = 0 then [3, 1, 2] else []) 1) 0).1.mem 0 =
      (Store.mk (fun i => if i = 0 then [3, 1, 2] else []) 1).mem 0 ∧
     (bubbleSortS (Store.mk (fun i => if i = 0 then [3, 1, 2] else []) 1) 0).1.mem 0 =
      (Store.mk (fun i => if i = 0 then [3, 1, 2] else []) 1).mem 0 ∧
     (bubbleSortS (Store.mk (fun i => if i = 0 then [3, 1, 2] else []) 1) 0).1.mem
        (bubbleSortS (Store.mk (fun i => if i = 0 then [3, 1, 2] else []) 1) 0).2 =
      bubbleSort ((Store.mk (fun i => if i = 0 then [3, 1, 2] else []) 1).mem 0)) := by
  refine ⟨by decide, ?_⟩
  have h := C10_sorts_leave_input_unchanged
    (Store.mk (fun i => if i = 0 then [3, 1, 2] else []) 1) 0 (by decide)
  exact ⟨h.1, h.2.1, h.2.2.1, h.2.2.2⟩

/-! ## Decorator pattern: coffee shop
(`src/2_decorator/1_coffee_shop/example.py`)

A beverage is an `Espresso` wrapped in zero or more decorators; each
decorator holds the wrapped beverage (`self._beverage`), and
`SugarDecorator` additionally holds `teaspoons` (a Python int). -/

inductive Beverage
  | espresso : Beverage
  | milk (beverage : Beverage) : Beverage
  | sugar (beverage : Beverage) (teaspoons : Int) : Beverage
  | whip (beverage : Beverage) : Beverage
  | caramel (beverage : Beverage) : Beverage

/-- `get_description`: each decorator appends its own suffix to the
wrapped beverage's description (`f", {self._teaspoons} tsp Sugar"` for
sugar). -/
def Beverage.get_description : Beverage → String
  | .espresso => "Espresso"
  | .milk b => b.get_description ++ ", Milk"
  | .sugar b t => b.get_description ++ ", " ++ toString t ++ " tsp Sugar"
  | .whip b => b.get_description ++ ", Whipped Cream"
  | .caramel b => b.get_description ++ ", Caramel"

/-- `get_cost`: espresso costs 2.50; milk adds 0.50, sugar adds
`0.10 * teaspoons`, whipped cream adds 0.75, caramel adds 0.60. -/
def Beverage.get_cost : Beverage → ℚ
  | .espresso => 2.50
  | .milk b => b.get_cost + 0.50
  | .sugar b t => b.get_cost + 0.10 * t
  | .whip b => b.get_cost + 0.75
  | .caramel b => b.get_cost + 0.60

/-- **C5.** `SugarDecorator(MilkDecorator(Espresso()), teaspoons=2)` has
cost 3.20 and description `"Espresso, Milk, 2 tsp Sugar"` (components in
construction order, innermost first). -/
theorem C5_espresso_milk_sugar_order :
    (Beverage.sugar (Beverage.milk Beverage.espresso) 2).get_cost = 3.20 ∧
    (Beverage.sugar (Beverage.milk Beverage.espresso) 2).get_description =
      "Espresso, Milk, 2 tsp Sugar" := by
  constructor
  · show (2.50 : ℚ) + 0.50 + 0.10 * (2 : Int) = 3.20
    norm_num
  · rfl

/-- **C6 (counterexample).** The claim "every decorator wrap strictly
increases cost, Sugar with any teaspoons argument included" fails:
`SugarDecorator(b, teaspoons=0)` adds `0.10 * 0 = 0.0` to the cost. -/
theorem C6_counterexample :
    ¬ ((Beverage.sugar Beverage.espresso 0).get_cost >
        Beverage.espresso.get_cost) := by
  show ¬ ((2.50 : ℚ) + 0.10 * (0 : Int) > 2.50)
  norm_num

/-- **C6 (amended).** Milk, Whip and Caramel wraps strictly increase cost;
a Sugar wrap strictly increases cost whenever `teaspoons ≥ 1` (for
`teaspoons ≤ 0` it does not); every wrap, Sugar with any `teaspoons`
included, strictly increases the description length. -/
theorem C6_amended_monotone_wraps (b : Beverage) :
    ((Beverage.milk b).get_cost > b.get_cost) ∧
    (∀ t : Int, 1 ≤ t → (Beverage.sugar b t).get_cost > b.get_cost) ∧
    ((Beverage.whip b).get_cost > b.get_cost) ∧
    ((Beverage.caramel b).get_cost > b.get_cost) ∧
    ((Beverage.milk b).get_description.length > b.get_description.length) ∧
    (∀ t : Int,
      (Beverage.sugar b t).get_description.length > b.get_description.length) ∧
    ((Beverage.whip b).get_description.length > b.get_description.length) ∧
    ((Beverage.caramel b).get_description.length > b.get_description.length) := by
  refine ⟨?_, ?_, ?_, ?_, ?_, ?_, ?_, ?_⟩
  · show b.get_cost + 0.50 > b.get_cost
    norm_num
  · intro t ht
    show b.get_cost + 0.10 * t > b.get_cost
    have ht' : (1 : ℚ) ≤ (t : ℚ) := by exact_mod_cast ht
    nlinarith
  · show b.get_cost + 0.75 > b.get_cost
    norm_num
  · show b.get_cost + 0.60 > b.get_cost
    norm_num
  · show (b.get_description ++ ", Milk").length > b.get_description.length
    rw [String.length_append]
    have h6 : (", Milk" : String).length = 6 := by decide
    omega
  · intro t
    show (b.get_description ++ ", " ++ toString t ++ " tsp Sugar").length >
      b.get_description.length
    rw [String.length_append, String.length_append, String.length_append]
    have h10 : (" tsp Sugar" : String).length = 10 := by decide
    have h2 : (", " : String).length = 2 := by decide
    omega
  · show (b.get_description ++ ", Whipped Cream").length > b.get_description.length
    rw [String.length_append]
    have h14 : (", Whipped Cream" : String).length = 15 := by decide
    omega
  · show (b.get_description ++ ", Caramel").length > b.get_description.length
    rw [String.length_append]
    have h9 : (", Caramel" : String).length = 9 := by decide
    omega

/-- Witness for C6 (amended) at `b = Espresso()`, `teaspoons = 2`. -/
theorem C6_amended_witness :
    (1 : Int) ≤ 2 ∧
    (Beverage.sugar Beverage.espresso 2).get_cost >
      Beverage.espresso.get_cost :=
  ⟨by decide, (C6_amended_monotone_wraps Beverage.espresso).2.1 2 (by decide)⟩

/-! ## Observer pattern: stock market
(`src/3_observer/1_stock_market/example.py`)

`StockPrice._observers` is an ordered Python list; `in` / `remove` use
default object equality (identity), modelled by an arbitrary type with
decidable equality. -/

/-- `StockPrice.attach`: append the observer only if not already present. -/
def attach {α : Type} [DecidableEq α] (observers : List α) (o : α) : List α :=
  if o ∈ observers then observers else observers ++ [o]

/-- `StockPrice.detach`: remove (the first occurrence of) the observer if
present, otherwise do nothing. -/
def detach {α : Type} [DecidableEq α] (observers : List α) (o : α) : List α :=
  if o ∈ observers then observers.erase o else observers

/-- `StockPrice.notify`: calls `update` on each observer in list order, so
the delivery sequence of one notify call is exactly the observer list. -/
def notifyOrder {α : Type} (observers : List α) : List α := observers

theorem attach_nodup {α : Type} [DecidableEq α] {l : List α} (hnd : l.Nodup)
    (o : α) : (attach l o).Nodup := by
  rw [attach]
  split
  · exact hnd
  · next h => simpa [List.nodup_append] using ⟨hnd, h⟩

/-- **C7.** With a duplicate-free observer list: attaching the same
observer twice then notifying delivers exactly once to it; after a detach
a notify reaches exactly the remaining observers in attachment order and
not the detached one; detaching an unattached observer is a no-op. -/
theorem C7_observer_attach_detach_notify {α : Type} [DecidableEq α]
    (l : List α) (o o' : α) (hnd : l.Nodup) :
    (notifyOrder (attach (attach l o) o)).count o = 1 ∧
    (notifyOrder (detach l o)).count o = 0 ∧
    notifyOrder (detach l o) = l.filter (fun x => x ≠ o) ∧
    (o' ∉ l → detach l o' = l) := by
  have hfil : detach l o = l.filter (fun x => x ≠ o) := by
    rw [detach]
    split
    · rw [hnd.erase_eq_filter o]
      apply List.filter_congr
      intro x _
      by_cases hx : x = o <;> simp [hx]
    · next h =>
      symm
      rw [List.filter_eq_self]
      intro a ha
      simp only [ne_eq, decide_eq_true_eq]
      rintro rfl
      exact h ha
  refine ⟨?_, ?_, hfil, ?_⟩
  · by_cases ho : o ∈ l
    · have ha : attach l o = l := by rw [attach, if_pos ho]
      rw [notifyOrder, ha, ha]
      exact List.count_eq_one_of_mem hnd ho
    · have ha : attach l o = l ++ [o] := by rw [attach, if_neg ho]
      have ho2 : o ∈ l ++ [o] := by simp
      have hb : attach (l ++ [o]) o = l ++ [o] := by rw [attach, if_pos ho2]
      rw [notifyOrder, ha, hb, List.count_append, List.count_eq_zero.2 ho]
      simp
  · rw [notifyOrder, hfil]
    apply List.count_eq_zero.2
    simp [List.mem_filter]
  · intro h
    rw [detach, if_neg h]

/-- Witness for C7 at the concrete list `[0, 1]` with `o = 2`, `o' = 5`. -/
theorem C7_witness :
    ([0, 1] : List Nat).Nodup ∧
    ((notifyOrder (attach (attach [0, 1] 2) 2)).count 2 = 1 ∧
     (notifyOrder (detach [0, 1] 2)).count 2 = 0 ∧
     notifyOrder (detach [0, 1] 2) = List.filter (fun x => x ≠ 2) [0, 1] ∧
     ((5 : Nat) ∉ ([0, 1] : List Nat) → detach [0, 1] 5 = [0, 1])) :=
  ⟨by decide, C7_observer_attach_detach_notify [0, 1] 2 5 (by decide)⟩

/-! ## Adapter pattern: media player
(`src/4_adapter/1_media_player/example.py`)

`audio_type.lower()` on the ASCII tags used here is modelled by
lowercasing each character. -/

def pyLower (s : String) : String := ⟨s.data.map Char.toLower⟩

/-- `Mp3Player.play_mp3` (the adaptee's return value). -/
def play_mp3 (file_name : String) : String := "MP3: " ++ file_name

/-- `Mp4Player.play_mp4`. -/
def play_mp4 (file_name : String) : String := "MP4: " ++ file_name

/-- `VlcPlayer.play_vlc`. -/
def play_vlc (file_name : String) : String := "VLC: " ++ file_name

/-- `Mp3Adapter.play`: re-checks the tag, then calls the adaptee. -/
def Mp3Adapter.play (audio_type file_name : String) : Except String String :=
  if pyLower audio_type = "mp3" then Except.ok (play_mp3 file_name)
  else Except.error ("MP3 adapter cannot play " ++ audio_type ++ " files")

/-- `Mp4Adapter.play`. -/
def Mp4Adapter.play (audio_type file_name : String) : Except String String :=
  if pyLower audio_type = "mp4" then Except.ok (play_mp4 file_name)
  else Except.error ("MP4 adapter cannot play " ++ audio_type ++ " files")

/-- `VlcAdapter.play`. -/
def VlcAdapter.play (audio_type file_name : String) : Except String String :=
  if pyLower audio_type = "vlc" then Except.ok (play_vlc file_name)
  else Except.error ("VLC adapter cannot play " ++ audio_type ++ " files")

/-- `AudioPlayer.play`: dispatches on the lowercased tag to the matching
adapter, raising `ValueError(f"Invalid media type: {audio_type}")` for an
unrecognized tag.  An `Except.ok` value is produced only by an adaptee
`play_*` call, so "no playback occurs" is "the result is an error". -/
def AudioPlayer.play (audio_type file_name : String) : Except String String :=
  if pyLower audio_type = "mp3" then Mp3Adapter.play audio_type file_name
  else if pyLower audio_type = "mp4" then Mp4Adapter.play audio_type file_name
  else if pyLower audio_type = "vlc" then VlcAdapter.play audio_type file_name
  else Except.error ("Invalid media type: " ++ audio_type)

/-- **C8.** An unrecognized format tag (not case-insensitively equal to
mp3/mp4/vlc) always raises the unsupported-value error naming the invalid
type and produces no playback; the three recognized tags dispatch
case-insensitively to the corresponding adaptee. -/
theorem C8_audio_player_dispatch (audio_type file_name : String) :
    (pyLower audio_type ≠ "mp3" → pyLower audio_type ≠ "mp4" →
      pyLower audio_type ≠ "vlc" →
      AudioPlayer.play audio_type file_name =
        Except.error ("Invalid media type: " ++ audio_type)) ∧
    (pyLower audio_type = "mp3" →
      AudioPlayer.play audio_type file_name = Except.ok (play_mp3 file_name)) ∧
    (pyLower audio_type = "mp4" →
      AudioPlayer.play audio_type file_name = Except.ok (play_mp4 file_name)) ∧
    (pyLower audio_type = "vlc" →
      AudioPlayer.play audio_type file_name = Except.ok (play_vlc file_name)) := by
  refine ⟨?_, ?_, ?_, ?_⟩
  · intro h1 h2 h3
    rw [AudioPlayer.play, if_neg h1, if_neg h2, if_neg h3]
  · intro h
    rw [AudioPlayer.play, if_pos h, Mp3Adapter.play, if_pos h]
  · intro h
    have h1 : pyLower audio_type ≠ "mp3" := by rw [h]; decide
    rw [AudioPlayer.play, if_neg h1, if_pos h, Mp4Adapter.play, if_pos h]
  · intro h
    have h1 : pyLower audio_type ≠ "mp3" := by rw [h]; decide
    have h2 : pyLower audio_type ≠ "mp4" := by rw [h]; decide
    rw [AudioPlayer.play, if_neg h1, if_neg h2, if_pos h, VlcAdapter.play,
      if_pos h]

/-- Witness for C8: `"avi"` is rejected with the error naming it, and the
uppercase tag `"MP4"` dispatches to the MP4 adaptee. -/
theorem C8_witness :
    AudioPlayer.play "avi" "video.avi" =
      Except.error "Invalid media type: avi" ∧
    AudioPlayer.play "MP4" "movie.mp4" = Except.ok "MP4: movie.mp4" :=
  ⟨(C8_audio_player_dispatch "avi" "video.avi").1 (by decide) (by decide)
      (by decide),
   (C8_audio_player_dispatch "MP4" "movie.mp4").2.2.1 (by decide)⟩

/-! ## Composite pattern: file system
(`src/7_composite/1_file_system/example.py`)

`File` stores its size; `Folder` stores an ordered child list. -/

inductive FileSystemItem
  | file (name : String) (size : Int)
  | folder (name : String) (children : List FileSystemItem)

mutual
/-- `get_size`: a file returns its stored size; a folder recomputes
`total = 0; for child in children: total += child.get_size()` on every
call (the loop's running sum, written here as the equal elementwise sum
over the child list in order). -/
def get_size : FileSystemItem → Int
  | .file _ size => size
  | .folder _ children => sizeOfChildren children

def sizeOfChildren : List FileSystemItem → Int
  | [] => 0
  | c :: cs => get_size c + sizeOfChildren cs
end

mutual
/-- The sizes of all descendant `File` leaves, in depth-first order. -/
def leafSizes : FileSystemItem → List Int
  | .file _ size => [size]
  | .folder _ children => leafSizesList children

def leafSizesList : List FileSystemItem → List Int
  | [] => []
  | c :: cs => leafSizes c ++ leafSizesList cs
end

mutual
theorem get_size_eq_leaf : ∀ t : FileSystemItem, get_size t = (leafSizes t).sum
  | .file n s => by simp [get_size, leafSizes]
  | .folder n cs => by
    rw [get_size, leafSizes]
    exact sizeOfChildren_eq_leaf cs

theorem sizeOfChildren_eq_leaf : ∀ cs : List FileSystemItem,
    sizeOfChildren cs = (leafSizesList cs).sum
  | [] => by simp [sizeOfChildren, leafSizesList]
  | c :: cs => by
    rw [sizeOfChildren, leafSizesList, List.sum_append]
    rw [get_size_eq_leaf c, sizeOfChildren_eq_leaf cs]
end

theorem sizeOfChildren_map_sum (cs : List FileSystemItem) :
    sizeOfChildren cs = (cs.map get_size).sum := by
  induction cs with
  | nil => rfl
  | cons c cs ih => rw [sizeOfChildren, List.map_cons, List.sum_cons, ih]

/-- **C9.** A file's `get_size` is its stored size; a folder's `get_size`
equals the sum of its direct children's `get_size` (hence, recursively,
the sum of all descendant file leaves); the value is recomputed from the
current children on every call, so adding a child changes the next
`get_size` by exactly that child's size. -/
theorem C9_folder_size_is_recursive_sum (name : String) (size : Int)
    (children : List FileSystemItem) (t : FileSystemItem) :
    get_size (FileSystemItem.file name size) = size ∧
    get_size (FileSystemItem.folder name children) =
      (children.map get_size).sum ∧
    get_size t = (leafSizes t).sum ∧
    get_size (FileSystemItem.folder name (children ++ [t])) =
      get_size (FileSystemItem.folder name children) + get_size t := by
  refine ⟨rfl, ?_, get_size_eq_leaf t, ?_⟩
  · show sizeOfChildren children = (children.map get_size).sum
    rw [sizeOfChildren_map_sum]
  · show sizeOfChildren (children ++ [t]) = sizeOfChildren children + get_size t
    rw [sizeOfChildren_map_sum, sizeOfChildren_map_sum,
      List.map_append, List.sum_append]
    simp

/-! ## State pattern: vending machine
(`src/6_state/1_vending_machine/example.py`)

The machine holds a state object, the inserted money, the selected
product, and a product dictionary (name ↦ price, stock).  Each operation
dispatches on the current state; the printed messages are modelled as an
event list so that "reports X" claims can be stated. -/

inductive VMState
  | noMoney
  | hasMoney
  | sold
  | soldOut
deriving DecidableEq

inductive VMEvent
  | inserted (amount : ℚ)
  | ejected (amount : ℚ)
  | noMoneyToEject
  | insertMoneyFirst
  | selectFirst
  | productUnavailable (product : String)
  | selected (product : String) (price : ℚ)
  | insufficientFunds (needed : ℚ)
  | waitProcessing
  | cannotEject
  | dispensing (product : String)
  | changeReturned (amount : ℚ)
  | outOfStock (product : String)
  | machineEmpty
deriving DecidableEq

structure VendingMachine where
  state : VMState
  money : ℚ
  selected_product : Option String
  products : List (String × ℚ × Nat)
deriving DecidableEq

/-- `VendingMachine.get_product_price`: price of the product, `None` if
unknown. -/
def get_product_price (m : VendingMachine) (product : String) : Option ℚ :=
  (m.products.find? (fun x => x.1 = product)).map (fun x => x.2.1)

/-- `VendingMachine.has_product`: known and stock > 0. -/
def has_product (m : VendingMachine) (product : String) : Bool :=
  match m.products.find? (fun x => x.1 = product) with
  | some x => x.2.2 > 0
  | none => false

/-- `VendingMachine.remove_product`: decrement the product's stock. -/
def remove_product (m : VendingMachine) (product : String) : VendingMachine :=
  let ps := m.products.map
    (fun x => if x.1 = product then (x.1, x.2.1, x.2.2 - 1) else x)
  { m with products := ps }

/-- `insert_money`, dispatched on the current state. -/
def insert_money (m : VendingMachine) (amount : ℚ) :
    VendingMachine × List VMEvent :=
  match m.state with
  | .noMoney =>
    ({ m with money := m.money + amount, state := .hasMoney },
      [.inserted amount])
  | .hasMoney => ({ m with money := m.money + amount }, [.inserted amount])
  | .sold => (m, [.waitProcessing])
  | .soldOut => (m, [.machineEmpty])

/-- `eject_money`, dispatched on the current state.  In `NoMoneyState` it
only prints "No money to eject" and changes nothing. -/
def eject_money (m : VendingMachine) : VendingMachine × List VMEvent :=
  match m.state with
  | .noMoney => (m, [.noMoneyToEject])
  | .hasMoney =>
    ({ m with money := 0, state := .noMoney }, [.ejected m.money])
  | .sold => (m, [.cannotEject])
  | .soldOut =>
    if m.money > 0 then
      ({ m with money := 0, state := .noMoney }, [.ejected m.money])
    else ({ m with state := .noMoney }, [])

/-- `select_product`, dispatched on the current state.  In `HasMoneyState`
an unknown product is reported; with sufficient funds the product is
selected and the state becomes `SoldState`; otherwise the exact shortfall
`price - money` is reported and nothing changes. -/
def select_product (m : VendingMachine) (product : String) :
    VendingMachine × List VMEvent :=
  match m.state with
  | .noMoney => (m, [.insertMoneyFirst])
  | .hasMoney =>
    match get_product_price m product with
    | none => (m, [.productUnavailable product])
    | some price =>
      if m.money ≥ price then
        ({ m with selected_product := some product, state := .sold },
          [.selected product price])
      else (m, [.insufficientFunds (price - m.money)])
  | .sold => (m, [.waitProcessing])
  | .soldOut => (m, [.machineEmpty])

/-- `dispense`, dispatched on the current state.  In `SoldState`, if the
selected product is in stock it is dispensed: stock decremented, change
`money - price` reported when positive, money zeroed, selection cleared,
state back to `NoMoneyState`.  If it is out of stock, the machine only
reports this and moves to `NoMoneyState`: the money is neither zeroed nor
returned and the selection is not cleared. -/
def dispense (m : VendingMachine) : VendingMachine × List VMEvent :=
  match m.state with
  | .noMoney => (m, [.insertMoneyFirst])
  | .hasMoney => (m, [.selectFirst])
  | .soldOut => (m, [.machineEmpty])
  | .sold =>
    match m.selected_product with
    | none => ({ m with state := .noMoney }, [.outOfStock "None"])
    | some product =>
      if has_product m product then
        let price := (get_product_price m product).getD 0
        let change := m.money - price
        (({ remove_product m product with
              money := 0, selected_product := none, state := .noMoney }),
          [.dispensing product] ++
            (if change > 0 then [.changeReturned change] else []))
      else ({ m with state := .noMoney }, [.outOfStock product])

/-- `VendingMachine.__init__`: the initial stock, `Candy` out of stock. -/
def initialMachine : VendingMachine :=
  { state := .noMoney
    money := 0
    selected_product := none
    products := [("Coke", 1.50, 5), ("Pepsi", 1.50, 3),
                 ("Chips", 2.00, 4), ("Candy", 1.00, 0)] }

/-- The machine after `insert_money(1.00)` from the initial state. -/
def machineFunded : VendingMachine :=
  { state := .hasMoney, money := 1.00, selected_product := none,
    products := [("Coke", 1.50, 5), ("Pepsi", 1.50, 3),
                 ("Chips", 2.00, 4), ("Candy", 1.00, 0)] }

/-- The machine after then selecting the out-of-stock product `Candy`
(price 1.00, stock 0): the price check passes, so the machine moves to
`SoldState` with `Candy` selected. -/
def machineCandySelected : VendingMachine :=
  { state := .sold, money := 1.00, selected_product := some "Candy",
    products := [("Coke", 1.50, 5), ("Pepsi", 1.50, 3),
                 ("Chips", 2.00, 4), ("Candy", 1.00, 0)] }

/-- The machine after then calling `dispense`: the out-of-stock branch of
`SoldState.dispense` moves to `NoMoneyState` but keeps the money and the
selection. -/
def machineAfterFailedDispense : VendingMachine :=
  { state := .noMoney, money := 1.00, selected_product := some "Candy",
    products := [("Coke", 1.50, 5), ("Pepsi", 1.50, 3),
                 ("Chips", 2.00, 4), ("Candy", 1.00, 0)] }

/-- **C2 (code bug).** Buying the out-of-stock `Candy` after inserting
$1.00: the purchase is rejected and the stock is not decremented — that
part of the claim holds — but the machine ends in `NoMoneyState` with the
$1.00 still recorded, and `NoMoneyState.eject_money` is a no-op, so the
inserted money is neither ejectable nor returned, contradicting the claim
(and the demo script's own step 7, whose "insufficient funds" scenario
silently succeeds because of the trapped $1.00). -/
theorem C2_out_of_stock_purchase_traps_money :
    (insert_money initialMachine 1.00).1 = machineFunded ∧
    select_product machineFunded "Candy" =
      (machineCandySelected, [.selected "Candy" 1.00]) ∧
    dispense machineCandySelected =
      (machineAfterFailedDispense, [.outOfStock "Candy"]) ∧
    machineAfterFailedDispense.products = initialMachine.products ∧
    machineAfterFailedDispense.state = .noMoney ∧
    machineAfterFailedDispense.money = 1.00 ∧
    eject_money machineAfterFailedDispense =
      (machineAfterFailedDispense, [.noMoneyToEject]) := by
  refine ⟨?_, ?_, ?_, rfl, rfl, rfl, rfl⟩
  · norm_num [initialMachine, insert_money, machineFunded]
  · have hp : get_product_price machineFunded "Candy" = some 1.00 := rfl
    have hs : machineFunded.state = VMState.hasMoney := rfl
    have hm : machineFunded.money = 1.00 := rfl
    simp only [select_product, hs, hp]
    norm_num [hm, machineFunded, machineCandySelected]
  · have hs : machineCandySelected.state = VMState.sold := rfl
    have hsel : machineCandySelected.selected_product = some "Candy" := rfl
    have hh : has_product machineCandySelected "Candy" = false := rfl
    simp only [dispense, hs, hsel, hh]
    rfl

/-- **C4.** In `HasMoneyState`, selecting a known in-stock product whose
price strictly exceeds the inserted money leaves the machine (state,
money, selection, stock) completely unchanged and reports exactly the
shortfall `price - money`. -/
theorem C4_insufficient_funds_keeps_state (m : VendingMachine)
    (product : String) (price : ℚ)
    (hstate : m.state = .hasMoney)
    (hprice : get_product_price m product = some price)
    (hstock : has_product m product = true)
    (hlt : m.money < price) :
    select_product m product = (m, [.insufficientFunds (price - m.money)]) := by
  simp only [select_product, hstate, hprice]
  rw [if_neg (not_le.2 hlt)]

/-- Witness for C4: the funded machine ($1.00) selecting `Chips`
($2.00, stock 4) is refused with shortfall $1.00 and left unchanged. -/
theorem C4_witness :
    machineFunded.state = VMState.hasMoney ∧
    get_product_price machineFunded "Chips" = some 2.00 ∧
    has_product machineFunded "Chips" = true ∧
    machineFunded.money < 2.00 ∧
    select_product machineFunded "Chips" =
      (machineFunded, [.insufficientFunds (2.00 - machineFunded.money)]) :=
  ⟨rfl, rfl, rfl, by norm_num [machineFunded],
   C4_insufficient_funds_keeps_state machineFunded "Chips" 2.00 rfl rfl rfl
     (by norm_num [machineFunded])⟩

end DesignPatterns
